import Mathlib

/-!
Verification of `location_history_total/totaler.py` (repository
`traherom/location-history-total`).

The program ingests geolocation samples, classifies each as present /
absent with respect to a set of circular regions and optional time
windows, merges consecutive present samples into work periods with a
small state machine, and totals the resulting durations per calendar
date.

Shallow embedding choices:
* Python floats (latitude, longitude, radius in decimal degrees) are
  modelled as exact rationals `ℚ`; integers (timestamps in seconds or
  milliseconds, durations) as `ℤ`.
* `location_at_work` and `location_in_timeframe` are translated directly
  from the source; the per-sample verdict (`at_work` in the loop of `main`)
  and the state machine of `main` (lines 124-182) are made explicit as a
  fold `aggregate` over the sorted sample list.
* The local-calendar-date function `date.fromtimestamp(...).strftime`
  depends on the host timezone, so it is taken as a parameter
  `dateOf : ℤ → String`; the date-totalling fold is translated from the
  source with Python-dict semantics (insertion order, in-place update).
-/

/-- `Point = namedtuple("Point", ["lat", "long", "radius"])`. -/
structure Point where
  lat : ℚ
  long : ℚ
  radius : ℚ
deriving DecidableEq, Repr

/-- `Timeframe = namedtuple("Timeframe", ["start", "stop"])`. -/
structure Timeframe where
  start : ℤ
  stop : ℤ
deriving DecidableEq, Repr

/-- `Location = namedtuple("Location", ["time", "point"])`. -/
structure Location where
  time : ℤ
  point : Point
deriving DecidableEq, Repr

/-- `location_at_work(location, work_points)`: the loop returns `True` on
the first region with `(long-p.long)^2 + (lat-p.lat)^2 < p.radius^2`,
else `False`. -/
def location_at_work (location : Point) (work_points : List Point) : Bool :=
  work_points.any fun point =>
    decide ((location.long - point.long) ^ 2 + (location.lat - point.lat) ^ 2
      < point.radius ^ 2)

/-- `location_in_timeframe(loc_time, times)`: `True` iff some timeframe
satisfies `time.start <= loc_time <= time.stop`. -/
def location_in_timeframe (loc_time : ℤ) (times : List Timeframe) : Bool :=
  times.any fun time => decide (time.start ≤ loc_time ∧ loc_time ≤ time.stop)

/-- The per-sample verdict computed in the loop of `main`:
`(location_in_timeframe(location.time, work_times) or not work_times) and
location_at_work(location.point, work_points)`. -/
def at_work (location : Location) (work_times : List Timeframe)
    (work_points : List Point) : Bool :=
  (location_in_timeframe location.time work_times || work_times.isEmpty)
    && location_at_work location.point work_points

/-- A raw record of the input JSON, already parsed to numbers:
`timestampMs` (milliseconds), `latitudeE7` / `longitudeE7`
(degrees × 10_000_000). -/
structure RawRecord where
  timestampMs : ℤ
  latitudeE7 : ℤ
  longitudeE7 : ℤ
deriving DecidableEq, Repr

/-- The sample normalisation in the loop of `main`:
`Location(time=int(location[TIMESTAMP_KEY]) // 1000,
point=Point(lat=location[LATITUDE_KEY] / 10_000_000,
long=location[LONGITUDE_KEY] / 10_000_000, radius=0))`.
Python `//` on ints is floor division, hence `Int.fdiv`. -/
def normalizeSample (r : RawRecord) : Location :=
  { time := Int.fdiv r.timestampMs 1000,
    point :=
      { lat := (r.latitudeE7 : ℚ) / 10000000,
        long := (r.longitudeE7 : ℚ) / 10000000,
        radius := 0 } }

/-- The mutable loop state of `main`: `work_periods` and
`current_work_period`. -/
structure AggState where
  work_periods : List Timeframe
  current : Option Timeframe
deriving DecidableEq, Repr

/-- One iteration of the loop body of `main` (after the verdict `at_work` is
computed): open / extend / close / no-op. The close branch first
rebuilds `current_work_period` with `stop=location.time` and then
appends it. -/
def stepAgg (work_times : List Timeframe) (work_points : List Point)
    (s : AggState) (location : Location) : AggState :=
  let a := at_work location work_times work_points
  match s.current with
  | none =>
      if a then
        { s with current := some { start := location.time, stop := location.time } }
      else
        s
  | some cur =>
      if a then
        { s with current := some { start := cur.start, stop := location.time } }
      else
        { work_periods := s.work_periods ++ [{ start := cur.start, stop := location.time }],
          current := none }

/-- The end-of-stream finalisation after the loop:
`if current_work_period: work_periods.append(current_work_period)`. -/
def finishAgg (s : AggState) : List Timeframe :=
  match s.current with
  | none => s.work_periods
  | some cur => s.work_periods ++ [cur]

/-- The whole aggregator of `main` run over an (already sorted) sample
list: fold the loop body from the empty state, then finalise. -/
def aggregate (work_times : List Timeframe) (work_points : List Point)
    (locations : List Location) : List Timeframe :=
  finishAgg (locations.foldl (stepAgg work_times work_points)
    { work_periods := [], current := none })

/-- `date_totals[when] = seconds + date_totals.get(when, 0)` on a Python
dict, modelled as an association list: updating an existing key keeps
its position, a new key is appended at the end. -/
def updateTotals (key : String) (seconds : ℤ) :
    List (String × ℤ) → List (String × ℤ)
  | [] => [(key, seconds)]
  | (k, v) :: rest =>
      if k = key then (k, seconds + v) :: rest
      else (k, v) :: updateTotals key seconds rest

/-- The date-totalling loop of `main`:
for each period, `when = date.fromtimestamp(period.start).strftime(...)`
(abstracted as `dateOf`), `seconds = period.stop - period.start`,
`date_totals[when] = seconds + date_totals.get(when, 0)`. -/
def date_totals (dateOf : ℤ → String) (work_periods : List Timeframe) :
    List (String × ℤ) :=
  work_periods.foldl
    (fun acc period => updateTotals (dateOf period.start)
      (period.stop - period.start) acc) []

/-- The running total of the interactive result sink:
`total_seconds += period.stop - period.start` over all periods. -/
def total_seconds (work_periods : List Timeframe) : ℤ :=
  work_periods.foldl (fun acc period => acc + (period.stop - period.start)) 0

/-- Reading a key of the date-total dictionary
(`date_totals.get(when, ...)`): the value stored at a key, if any. -/
def lookupTotal (k : String) : List (String × ℤ) → Option ℤ
  | [] => none
  | (k2, v) :: rest => if k2 = k then some v else lookupTotal k rest

/-- The keys of the date-total dictionary, in insertion order. -/
def keysOf (l : List (String × ℤ)) : List String := l.map Prod.fst

/-- Invariant carried through the aggregation loop: `t` is an upper
bound on every timestamp seen so far; closed periods are well formed,
mutually ordered and all end before `t`; an open period is well formed,
ends before `t` and starts no earlier than every closed period ends. -/
def AggInv (s : AggState) (t : ℤ) : Prop :=
  (∀ p ∈ s.work_periods, p.start ≤ p.stop) ∧
  s.work_periods.Pairwise (fun p q => p.stop ≤ q.start) ∧
  (∀ p ∈ s.work_periods, p.stop ≤ t) ∧
  (∀ cur, s.current = some cur →
    cur.start ≤ cur.stop ∧ cur.stop ≤ t ∧ ∀ p ∈ s.work_periods, p.stop ≤ cur.start)

/-- The region of scenarios A and B of the specification:
`(lat=10.0, long=10.0, radius=0.01)`. -/
def regionA : Point := { lat := 10, long := 10, radius := 1 / 100 }

/-- Scenario A samples: `t=100` inside, `t=200` inside, `t=300`
outside. -/
def samplesA : List Location :=
  [ { time := 100, point := { lat := 10, long := 10, radius := 0 } },
    { time := 200, point := { lat := 10, long := 10, radius := 0 } },
    { time := 300, point := { lat := 0, long := 0, radius := 0 } } ]

/-- Scenario B samples: `t=100` inside, `t=200` inside, then the stream
ends. -/
def samplesB : List Location :=
  [ { time := 100, point := { lat := 10, long := 10, radius := 0 } },
    { time := 200, point := { lat := 10, long := 10, radius := 0 } } ]

/-- A concrete local-date function for witnesses: timestamps below 100
fall on day `a`, the rest on day `b`. -/
def dateOf0 (t : ℤ) : String := if t < 100 then "a" else "b"

/-- Concrete work periods for witnesses: two start on day `a` (starts 0
and 20), one on day `b` (start 150). -/
def periods0 : List Timeframe :=
  [ { start := 0, stop := 10 }, { start := 150, stop := 160 },
    { start := 20, stop := 50 } ]

lemma total_seconds_foldl (work_periods : List Timeframe) (a : ℤ) :
    work_periods.foldl (fun acc period => acc + (period.stop - period.start)) a
      = a + (work_periods.map fun p => p.stop - p.start).sum := by
  induction work_periods generalizing a with
  | nil => simp
  | cons p ps ih => simp [ih, add_assoc]

/-- C2: region membership holds iff some region has squared planar
distance to the sample strictly below its squared radius; a sample
exactly on the boundary of a region is not captured by that region. -/
theorem C2_region_membership :
    (∀ (location : Point) (work_points : List Point),
      location_at_work location work_points = true ↔
        ∃ point ∈ work_points,
          (location.long - point.long) ^ 2 + (location.lat - point.lat) ^ 2
            < point.radius ^ 2) ∧
    (∀ location point : Point,
      (location.long - point.long) ^ 2 + (location.lat - point.lat) ^ 2
          = point.radius ^ 2 →
        location_at_work location [point] = false) := by
  constructor
  · intro location work_points
    simp [location_at_work, List.any_eq_true]
  · intro location point h
    simp [location_at_work, h]

/-- Witness for C2 at a concrete boundary point: the sample at
`(lat 0, long 1/10)` lies exactly `1/10` degrees from the center of the
region `(0, 0, 1/10)` and is classified outside. -/
theorem C2_region_membership_witness :
    location_at_work { lat := 0, long := 1/10, radius := 0 }
      [{ lat := 0, long := 0, radius := 1/10 }] = false :=
  C2_region_membership.2 _ _ (by norm_num)

/-- C3: the verdict is region membership AND time-in-scope, where
time-in-scope means lying in `[start, stop]` of some window or the
window list being empty; with zero windows the verdict equals pure
region membership. -/
theorem C3_presence_classifier :
    (∀ (location : Location) (work_times : List Timeframe)
        (work_points : List Point),
      at_work location work_times work_points = true ↔
        (location_at_work location.point work_points = true ∧
          (work_times = [] ∨ ∃ tf ∈ work_times,
            tf.start ≤ location.time ∧ location.time ≤ tf.stop))) ∧
    (∀ (location : Location) (work_points : List Point),
      at_work location [] work_points
        = location_at_work location.point work_points) := by
  constructor
  · intro location work_times work_points
    simp only [at_work, Bool.and_eq_true, Bool.or_eq_true,
      List.isEmpty_iff, location_in_timeframe, List.any_eq_true,
      decide_eq_true_eq]
    constructor
    · rintro ⟨ht, hw⟩
      exact ⟨hw, ht.symm⟩
    · rintro ⟨hw, h⟩
      exact ⟨h.symm, hw⟩
  · intro location work_points
    simp [at_work, location_in_timeframe]

/-- C4: the normaliser floors the millisecond timestamp to whole
seconds and divides the fixed-point coordinates by 10^7, with radius 0
and nothing else. -/
theorem C4_normalizer (r : RawRecord) :
    (normalizeSample r).time = ⌊(r.timestampMs : ℚ) / 1000⌋ ∧
    (normalizeSample r).point.lat = (r.latitudeE7 : ℚ) / 10000000 ∧
    (normalizeSample r).point.long = (r.longitudeE7 : ℚ) / 10000000 ∧
    (normalizeSample r).point.radius = 0 := by
  refine ⟨?_, rfl, rfl, rfl⟩
  show Int.fdiv r.timestampMs 1000 = _
  rw [Int.fdiv_eq_ediv _ (by norm_num)]
  exact_mod_cast (Rat.floor_intCast_div_natCast r.timestampMs 1000).symm

/-- C7: the grand total of the interactive sink is the sum of
`stop - start` over all emitted work periods. -/
theorem C7_sum_property (work_periods : List Timeframe) :
    total_seconds work_periods
      = (work_periods.map fun p => p.stop - p.start).sum := by
  simpa using total_seconds_foldl work_periods 0

lemma aggregate_samplesA :
    aggregate [] [regionA] samplesA = [{ start := 100, stop := 300 }] := by
  simp [aggregate, samplesA, regionA, stepAgg, at_work, location_at_work,
    location_in_timeframe, finishAgg, List.foldl]
  norm_num

lemma aggregate_samplesB :
    aggregate [] [regionA] samplesB = [{ start := 100, stop := 200 }] := by
  simp [aggregate, samplesB, regionA, stepAgg, at_work, location_at_work,
    location_in_timeframe, finishAgg, List.foldl]

/-- C1 as stated is false on the code: in scenario A (region
`(10, 10, 0.01)`, samples at `t=100` inside, `t=200` inside, `t=300`
outside) the output is not `[{start:100, stop:200}]`. -/
theorem C1_counterexample :
    aggregate [] [regionA] samplesA ≠ [{ start := 100, stop := 200 }] := by
  rw [aggregate_samplesA]
  decide

/-- C1 amended: on an open period and an absent sample, the close
action first updates `stop` to the absent sample timestamp and then
appends `{start, stop}`; scenario A therefore yields the single work
period `{start:100, stop:300}` (duration 200 seconds). -/
theorem C1_close_updates_stop :
    (∀ (work_times : List Timeframe) (work_points : List Point)
        (s : AggState) (cur : Timeframe) (location : Location),
      s.current = some cur →
      at_work location work_times work_points = false →
      stepAgg work_times work_points s location =
        { work_periods := s.work_periods
            ++ [{ start := cur.start, stop := location.time }],
          current := none }) ∧
    aggregate [] [regionA] samplesA = [{ start := 100, stop := 300 }] := by
  constructor
  · intro work_times work_points s cur location hcur ha
    simp [stepAgg, hcur, ha]
  · exact aggregate_samplesA

/-- Witness for C1 amended: a concrete close step appends the period
with `stop` updated to the absent sample timestamp `5`. -/
theorem C1_close_updates_stop_witness :
    stepAgg [] []
        { work_periods := [], current := some { start := 1, stop := 2 } }
        { time := 5, point := { lat := 0, long := 0, radius := 0 } }
      = { work_periods := [{ start := 1, stop := 5 }], current := none } :=
  C1_close_updates_stop.1 [] []
    { work_periods := [], current := some { start := 1, stop := 2 } }
    { start := 1, stop := 2 }
    { time := 5, point := { lat := 0, long := 0, radius := 0 } } rfl rfl

/-- C5: a period still open at end-of-stream is appended as-is, without
an extra absent sample; scenario B (present at `t=100` and `t=200`,
then the stream ends) yields `[{start:100, stop:200}]`. -/
theorem C5_end_of_stream :
    (∀ (s : AggState) (cur : Timeframe), s.current = some cur →
        finishAgg s = s.work_periods ++ [cur]) ∧
    aggregate [] [regionA] samplesB = [{ start := 100, stop := 200 }] := by
  constructor
  · intro s cur hcur
    simp [finishAgg, hcur]
  · exact aggregate_samplesB

/-- Witness for C5: finalising a concrete state with an open period
appends that period unchanged. -/
theorem C5_end_of_stream_witness :
    finishAgg { work_periods := [], current := some { start := 1, stop := 2 } }
      = [{ start := 1, stop := 2 }] :=
  C5_end_of_stream.1 _ _ rfl

lemma stepAgg_none_pos {work_times : List Timeframe} {work_points : List Point}
    {location : Location} (wps : List Timeframe)
    (ha : at_work location work_times work_points = true) :
    stepAgg work_times work_points { work_periods := wps, current := none } location
      = { work_periods := wps,
          current := some { start := location.time, stop := location.time } } := by
  simp [stepAgg, ha]

lemma stepAgg_none_neg {work_times : List Timeframe} {work_points : List Point}
    {location : Location} (wps : List Timeframe)
    (ha : at_work location work_times work_points = false) :
    stepAgg work_times work_points { work_periods := wps, current := none } location
      = { work_periods := wps, current := none } := by
  simp [stepAgg, ha]

lemma stepAgg_some_pos {work_times : List Timeframe} {work_points : List Point}
    {location : Location} (wps : List Timeframe) (cur : Timeframe)
    (ha : at_work location work_times work_points = true) :
    stepAgg work_times work_points { work_periods := wps, current := some cur } location
      = { work_periods := wps,
          current := some { start := cur.start, stop := location.time } } := by
  simp [stepAgg, ha]

lemma stepAgg_some_neg {work_times : List Timeframe} {work_points : List Point}
    {location : Location} (wps : List Timeframe) (cur : Timeframe)
    (ha : at_work location work_times work_points = false) :
    stepAgg work_times work_points { work_periods := wps, current := some cur } location
      = { work_periods := wps ++ [{ start := cur.start, stop := location.time }],
          current := none } := by
  simp [stepAgg, ha]

lemma aggInv_init (t : ℤ) :
    AggInv { work_periods := [], current := none } t := by
  unfold AggInv
  refine ⟨?_, ?_, ?_, ?_⟩
  · intro p hp
    exact nomatch hp
  · exact List.Pairwise.nil
  · intro p hp
    exact nomatch hp
  · intro c hc
    exact nomatch hc

lemma aggInv_step (work_times : List Timeframe) (work_points : List Point)
    (s : AggState) (t : ℤ) (location : Location)
    (hInv : AggInv s t) (hle : t ≤ location.time) :
    AggInv (stepAgg work_times work_points s location) location.time := by
  obtain ⟨wps, cur⟩ := s
  obtain ⟨h1, h2, h3, h4⟩ := hInv
  cases cur with
  | none =>
    by_cases ha : at_work location work_times work_points = true
    · rw [stepAgg_none_pos wps ha]
      refine ⟨h1, h2, fun p hp => (h3 p hp).trans hle, ?_⟩
      intro c hc
      obtain rfl : { start := location.time, stop := location.time } = c :=
        Option.some_injective _ hc
      exact ⟨le_refl _, le_refl _, fun p hp => (h3 p hp).trans hle⟩
    · rw [stepAgg_none_neg wps (Bool.not_eq_true _ ▸ ha)]
      exact ⟨h1, h2, fun p hp => (h3 p hp).trans hle, fun c hc => nomatch hc⟩
  | some cur =>
    obtain ⟨hcs, hct, hcp⟩ := h4 cur rfl
    by_cases ha : at_work location work_times work_points = true
    · rw [stepAgg_some_pos wps cur ha]
      refine ⟨h1, h2, fun p hp => (h3 p hp).trans hle, ?_⟩
      intro c hc
      obtain rfl : { start := cur.start, stop := location.time } = c :=
        Option.some_injective _ hc
      exact ⟨(hcs.trans hct).trans hle, le_refl _, hcp⟩
    · rw [stepAgg_some_neg wps cur (Bool.not_eq_true _ ▸ ha)]
      refine ⟨?_, ?_, ?_, fun c hc => nomatch hc⟩
      · intro p hp
        rcases List.mem_append.mp hp with hp | hp
        · exact h1 p hp
        · rw [List.mem_singleton.mp hp]
          exact (hcs.trans hct).trans hle
      · refine List.pairwise_append.mpr ⟨h2, List.pairwise_singleton _ _, ?_⟩
        intro p hp q hq
        rw [List.mem_singleton.mp hq]
        exact hcp p hp
      · intro p hp
        rcases List.mem_append.mp hp with hp | hp
        · exact (h3 p hp).trans hle
        · rw [List.mem_singleton.mp hp]

lemma aggInv_foldl (work_times : List Timeframe) (work_points : List Point)
    (locations : List Location) :
    ∀ (s : AggState) (t : ℤ), AggInv s t →
      List.Chain (· ≤ ·) t (locations.map Location.time) →
      ∃ t2, AggInv (locations.foldl (stepAgg work_times work_points) s) t2 := by
  induction locations with
  | nil => exact fun s t h _ => ⟨t, h⟩
  | cons l ls ih =>
    intro s t h hch
    rw [List.map_cons, List.chain_cons] at hch
    exact ih _ l.time (aggInv_step work_times work_points s t l h hch.1) hch.2

lemma aggInv_finish (s : AggState) (t : ℤ) (h : AggInv s t) :
    (∀ p ∈ finishAgg s, p.start ≤ p.stop) ∧
    (finishAgg s).Pairwise (fun p q => p.stop ≤ q.start) := by
  obtain ⟨wps, cur⟩ := s
  obtain ⟨h1, h2, h3, h4⟩ := h
  cases cur with
  | none => exact ⟨h1, h2⟩
  | some c =>
    obtain ⟨hcs, _, hcp⟩ := h4 c rfl
    constructor
    · intro p hp
      rcases List.mem_append.mp hp with hp | hp
      · exact h1 p hp
      · rw [List.mem_singleton.mp hp]
        exact hcs
    · refine List.pairwise_append.mpr ⟨h2, List.pairwise_singleton _ _, ?_⟩
      intro p hp q hq
      rw [List.mem_singleton.mp hq]
      exact hcp p hp

/-- C6: on a sample stream with non-decreasing timestamps, every
emitted work period has `start ≤ stop`, starts are non-decreasing, and
no two periods overlap (each ends no later than the next starts). -/
theorem C6_aggregator_invariants (work_times : List Timeframe)
    (work_points : List Point) (locations : List Location)
    (hsorted : locations.Chain' (fun a b => a.time ≤ b.time)) :
    (∀ p ∈ aggregate work_times work_points locations, p.start ≤ p.stop) ∧
    (aggregate work_times work_points locations).Pairwise
      (fun p q => p.start ≤ q.start) ∧
    (aggregate work_times work_points locations).Pairwise
      (fun p q => p.stop ≤ q.start) := by
  have hbase : ∃ t2, AggInv (locations.foldl (stepAgg work_times work_points)
      { work_periods := [], current := none }) t2 := by
    cases locations with
    | nil => exact ⟨0, aggInv_init 0⟩
    | cons l ls =>
      refine aggInv_foldl work_times work_points (l :: ls) _ l.time
        (aggInv_init l.time) ?_
      rw [List.map_cons, List.chain_cons]
      exact ⟨le_refl _, (List.chain_map Location.time).mpr hsorted⟩
  obtain ⟨t2, hInv⟩ := hbase
  have hfin := aggInv_finish _ t2 hInv
  refine ⟨hfin.1, ?_, hfin.2⟩
  exact List.Pairwise.imp_of_mem
    (fun hp _ h => ((hfin.1 _ hp).trans h)) hfin.2

/-- Witness for C6: the invariants hold on the concrete scenario A
stream, whose output is the single period `{100, 300}`. -/
theorem C6_aggregator_invariants_witness :
    (aggregate [] [regionA] samplesA).Pairwise
      (fun p q => p.stop ≤ q.start) :=
  (C6_aggregator_invariants [] [regionA] samplesA (by
    simp [samplesA, List.chain'_cons])).2.2

lemma keysOf_cons (kv : String × ℤ) (l : List (String × ℤ)) :
    keysOf (kv :: l) = kv.1 :: keysOf l := rfl

lemma lookupTotal_updateTotals (key : String) (s : ℤ) (k : String) :
    ∀ acc : List (String × ℤ),
      lookupTotal k (updateTotals key s acc) =
        if k = key then some (s + (lookupTotal k acc).getD 0)
        else lookupTotal k acc := by
  intro acc
  induction acc with
  | nil =>
    by_cases h : k = key
    · subst h
      simp [updateTotals, lookupTotal]
    · simp [updateTotals, lookupTotal, h, Ne.symm h]
  | cons kv rest ih =>
    obtain ⟨k2, v⟩ := kv
    by_cases h2 : k2 = key
    · subst h2
      by_cases h : k2 = k
      · subst h
        simp [updateTotals, lookupTotal]
      · simp [updateTotals, lookupTotal, h, Ne.symm h]
    · by_cases h : k2 = k
      · subst h
        simp [updateTotals, lookupTotal, h2, fun hh : k2 = key => h2 hh]
      · simp [updateTotals, lookupTotal, h2, h, ih]

lemma keysOf_updateTotals (key : String) (s : ℤ) :
    ∀ acc : List (String × ℤ),
      keysOf (updateTotals key s acc) =
        if key ∈ keysOf acc then keysOf acc else keysOf acc ++ [key] := by
  intro acc
  induction acc with
  | nil => simp [updateTotals, keysOf]
  | cons kv rest ih =>
    obtain ⟨k2, v⟩ := kv
    by_cases h2 : k2 = key
    · subst h2
      simp [updateTotals, keysOf]
    · have hmem2 : (key ∈ keysOf ((k2, v) :: rest)) ↔ key ∈ keysOf rest := by
        simp [keysOf, Ne.symm h2]
      by_cases hmem : key ∈ keysOf rest
      · rw [if_pos (hmem2.mpr hmem)]
        simp only [updateTotals, if_neg h2, keysOf_cons, ih, if_pos hmem]
      · rw [if_neg (fun hh => hmem (hmem2.mp hh))]
        simp only [updateTotals, if_neg h2, keysOf_cons, ih, if_neg hmem,
          List.cons_append]

lemma keysOf_updateTotals_nodup (key : String) (s : ℤ)
    (acc : List (String × ℤ)) (h : (keysOf acc).Nodup) :
    (keysOf (updateTotals key s acc)).Nodup := by
  rw [keysOf_updateTotals]
  by_cases hmem : key ∈ keysOf acc
  · simpa [hmem] using h
  · simp only [hmem, if_false]
    rw [List.nodup_append]
    exact ⟨h, List.nodup_singleton key, by simp [List.disjoint_singleton, hmem]⟩

lemma date_totals_foldl_getD (dateOf : ℤ → String) (k : String) :
    ∀ (ps : List Timeframe) (acc : List (String × ℤ)),
      (lookupTotal k (ps.foldl (fun acc period =>
          updateTotals (dateOf period.start) (period.stop - period.start) acc)
        acc)).getD 0
      = (lookupTotal k acc).getD 0
        + ((ps.filter fun p => dateOf p.start == k).map
            fun p => p.stop - p.start).sum := by
  intro ps
  induction ps with
  | nil => simp
  | cons p rest ih =>
    intro acc
    rw [List.foldl_cons, ih, lookupTotal_updateTotals]
    by_cases h : k = dateOf p.start
    · rw [if_pos h]
      have hfil : (dateOf p.start == k) = true := by simp [h]
      simp [List.filter_cons, hfil]
      omega
    · rw [if_neg h]
      have hfil : (dateOf p.start == k) = false := by
        simp
        exact fun hh => h hh.symm
      simp [List.filter_cons, hfil]

lemma date_totals_foldl_mem (dateOf : ℤ → String) (k : String) :
    ∀ (ps : List Timeframe) (acc : List (String × ℤ)),
      (k ∈ keysOf (ps.foldl (fun acc period =>
          updateTotals (dateOf period.start) (period.stop - period.start) acc)
        acc)
      ↔ k ∈ keysOf acc ∨ ∃ p ∈ ps, dateOf p.start = k) := by
  intro ps
  induction ps with
  | nil => simp
  | cons p rest ih =>
    intro acc
    rw [List.foldl_cons, ih]
    have hup : k ∈ keysOf (updateTotals (dateOf p.start) (p.stop - p.start) acc)
        ↔ k ∈ keysOf acc ∨ k = dateOf p.start := by
      rw [keysOf_updateTotals]
      by_cases hmem : dateOf p.start ∈ keysOf acc
      · simp only [hmem, if_true]
        constructor
        · exact Or.inl
        · rintro (h | rfl)
          · exact h
          · exact hmem
      · simp [hmem]
    rw [hup]
    constructor
    · rintro (h | h)
      · rcases h with h | h
        · exact Or.inl h
        · exact Or.inr ⟨p, List.mem_cons_self p rest, h.symm⟩
      · obtain ⟨q, hq, hqk⟩ := h
        exact Or.inr ⟨q, List.mem_cons_of_mem p hq, hqk⟩
    · rintro (h | ⟨q, hq, hqk⟩)
      · exact Or.inl (Or.inl h)
      · rcases List.mem_cons.mp hq with rfl | hq
        · exact Or.inl (Or.inr hqk.symm)
        · exact Or.inr ⟨q, hq, hqk⟩

lemma date_totals_foldl_nodup (dateOf : ℤ → String) :
    ∀ (ps : List Timeframe) (acc : List (String × ℤ)),
      (keysOf acc).Nodup →
      (keysOf (ps.foldl (fun acc period =>
        updateTotals (dateOf period.start) (period.stop - period.start) acc)
        acc)).Nodup := by
  intro ps
  induction ps with
  | nil => exact fun acc h => h
  | cons p rest ih =>
    intro acc h
    rw [List.foldl_cons]
    exact ih _ (keysOf_updateTotals_nodup _ _ _ h)

/-- C8: the per-date table has exactly one entry per distinct start
date (keys are exactly the start dates, with no duplicates), and each
entry holds the sum of `stop - start` over the periods starting on that
date; a period is attributed entirely to the date of its `start`. -/
theorem C8_date_totals (dateOf : ℤ → String) (work_periods : List Timeframe) :
    (keysOf (date_totals dateOf work_periods)).Nodup ∧
    (∀ k, k ∈ keysOf (date_totals dateOf work_periods) ↔
      ∃ p ∈ work_periods, dateOf p.start = k) ∧
    (∀ k v, lookupTotal k (date_totals dateOf work_periods) = some v →
      v = ((work_periods.filter fun p => dateOf p.start == k).map
        fun p => p.stop - p.start).sum) := by
  refine ⟨?_, ?_, ?_⟩
  · exact date_totals_foldl_nodup dateOf work_periods []
      (by simp [keysOf])
  · intro k
    rw [date_totals, date_totals_foldl_mem]
    simp [keysOf]
  · intro k v hv
    have h := date_totals_foldl_getD dateOf k work_periods []
    rw [date_totals] at hv
    rw [hv] at h
    simpa [lookupTotal] using h

/-- Witness for C8 on concrete data: with `dateOf0` (day `a` below 100,
day `b` at or above), periods starting at 0, 150 and 20 give day `a`
the total `40 = (10 - 0) + (50 - 20)`. -/
theorem C8_date_totals_witness :
    (40 : ℤ) = ((periods0.filter fun p => dateOf0 p.start == "a").map
      fun p => p.stop - p.start).sum :=
  (C8_date_totals dateOf0 periods0).2.2 "a" 40 (by
    simp [date_totals, periods0, dateOf0, updateTotals, lookupTotal])

lemma perm_any {α : Type} {l1 l2 : List α} (h : l1.Perm l2) (f : α → Bool) :
    l1.any f = l2.any f := by
  refine Bool.coe_iff_coe.mp ?_
  simp only [List.any_eq_true]
  constructor
  · rintro ⟨x, hx, hfx⟩
    exact ⟨x, h.mem_iff.mp hx, hfx⟩
  · rintro ⟨x, hx, hfx⟩
    exact ⟨x, h.mem_iff.mpr hx, hfx⟩

lemma perm_isEmpty {α : Type} {l1 l2 : List α} (h : l1.Perm l2) :
    l1.isEmpty = l2.isEmpty := by
  refine Bool.coe_iff_coe.mp ?_
  simp only [List.isEmpty_iff]
  constructor
  · intro e
    exact ((e ▸ h).symm).eq_nil
  · intro e
    exact (e ▸ h).eq_nil

/-- C10: the verdict, the emitted work periods and the date totals are
invariant under permuting the region set and the window list. -/
theorem C10_permutation_invariance
    (wt1 wt2 : List Timeframe) (wp1 wp2 : List Point)
    (ht : wt1.Perm wt2) (hp : wp1.Perm wp2) :
    (∀ location : Location,
      at_work location wt1 wp1 = at_work location wt2 wp2) ∧
    (∀ locations : List Location,
      aggregate wt1 wp1 locations = aggregate wt2 wp2 locations) ∧
    (∀ (dateOf : ℤ → String) (locations : List Location),
      date_totals dateOf (aggregate wt1 wp1 locations)
        = date_totals dateOf (aggregate wt2 wp2 locations)) := by
  have haw : ∀ location : Location,
      at_work location wt1 wp1 = at_work location wt2 wp2 := by
    intro location
    unfold at_work location_at_work location_in_timeframe
    rw [perm_any ht, perm_any hp, perm_isEmpty ht]
  have hstep : stepAgg wt1 wp1 = stepAgg wt2 wp2 := by
    funext s location
    unfold stepAgg
    rw [haw]
  have hagg : ∀ locations : List Location,
      aggregate wt1 wp1 locations = aggregate wt2 wp2 locations := by
    intro locations
    unfold aggregate
    rw [hstep]
  exact ⟨haw, hagg, fun dateOf locations => by rw [hagg]⟩

/-- Witness for C10: swapping two windows and two regions leaves the
scenario A output unchanged. -/
theorem C10_permutation_invariance_witness :
    aggregate [{ start := 0, stop := 150 }, { start := 90, stop := 260 }]
        [regionA, { lat := 0, long := 0, radius := 1 }] samplesA
      = aggregate [{ start := 90, stop := 260 }, { start := 0, stop := 150 }]
        [{ lat := 0, long := 0, radius := 1 }, regionA] samplesA :=
  ((C10_permutation_invariance _ _ _ _
    (List.Perm.swap _ _ _) (List.Perm.swap _ _ _)).2.1) samplesA

/-- C9: on the empty sample sequence the work-period list, the date
totals and the grand total are all empty / zero. -/
theorem C9_empty_input (work_times : List Timeframe)
    (work_points : List Point) (dateOf : ℤ → String) :
    aggregate work_times work_points [] = [] ∧
    date_totals dateOf [] = [] ∧
    total_seconds [] = 0 :=
  ⟨rfl, rfl, rfl⟩
